import Mathlib

/-!
Verification of the DashProxy streaming proxy (`server.py`).

This file gives a shallow embedding of the core of the proxy:

* `parseDuration`  — `_parse_duration` (restricted ISO-8601 durations);
* `fmtTemplate` / `expandWithRep` — `_format_template` plus the
  `$RepresentationID$` substitution applied at its call sites;
* `timelinePairs` / `durationCount` / `processRep` / `parseMpd` —
  the manifest parser `parse_mpd`;
* `streamStatus` / `selectTrack` — the track filtering/selection and HTTP
  status logic of the `stream` route handler;
* `vodBody` / `liveBody` / `segmentFetcherTrace` — the producer thread
  `segment_fetcher` and the queue protocol it follows.

Modelling conventions: Python floats are modelled as `ℚ`; machine integers
as `Int`/`Nat`; exceptions as `Option`/explicit outcome values; the network,
the XML layer, wall-clock sleeps and the `stop_event` are oracles passed in
as explicit parameters.  Scanning functions that in Python are regular
expression calls are implemented as fuel-indexed structural recursions; the
fuel passed by the wrappers is always at least the length of the scanned
list, which each step strictly decreases.
-/

/-! ### Small string helpers (Python primitives used by the source) -/

/-- Digit-string to natural number, `'0'`–`'9'` positional. -/
def digitsToNat (ds : List Char) : Nat :=
  ds.foldl (fun a c => a * 10 + (c.toNat - 48)) 0

/-- Python's `float("<ip>.<fp>")` on the digit strings captured by the
duration regex, as an exact rational. -/
def ratOfParts (ip fp : List Char) : ℚ :=
  (digitsToNat ip : ℚ) + (digitsToNat fp : ℚ) / (10 ^ fp.length)

/-- Python's substring containment `pat in s` on char lists. -/
def listContains (l pat : List Char) : Bool :=
  match l with
  | [] => pat.isEmpty
  | _ :: tl => pat.isPrefixOf l || listContains tl pat

/-- Python's `pat in s` for strings. -/
def pyIn (pat s : String) : Bool :=
  listContains s.data pat.data

/-- Python's `s.lower()` (ASCII range, which is all the source feeds it). -/
def pyLower (s : String) : String :=
  String.mk (s.data.map Char.toLower)

/-- Python truthiness of an optional string: `None` and `""` are falsy. -/
def truthyStr : Option String → Option String
  | some s => if s.isEmpty then none else some s
  | none => none

/-! ### `_parse_duration` (server.py lines 18–27)

`re.findall(r"(\d+(?:\.\d+)?)([HMS])", s)` is implemented as a left-to-right
scan.  For this particular pattern, greedy matching without backtracking into
shorter digit runs is equivalent to the regex engine's behaviour: shortening
`\d+` (or `\.\d+`) always leaves the next character a digit, which can match
neither `\.` usefully nor `[HMS]`.  On a failed match attempt the engine
restarts one character after the attempt's start, which is what the
`findDurF fuel cs` calls in the failure branches do. -/

/-- One `findall` scan for `(\d+(?:\.\d+)?)([HMS])`: returns the captured
(integer-part digits, fractional-part digits) and the unit character of every
match, in order.  Fuel-indexed; each step consumes at least one character. -/
def findDurF : Nat → List Char → List ((List Char × List Char) × Char)
  | 0, _ => []
  | _ + 1, [] => []
  | fuel + 1, c :: cs =>
    if c.isDigit then
      let ds := cs.takeWhile Char.isDigit
      let r1 := cs.dropWhile Char.isDigit
      match r1 with
      | '.' :: r2 =>
        let fs := r2.takeWhile Char.isDigit
        let r3 := r2.dropWhile Char.isDigit
        if fs.isEmpty then findDurF fuel cs
        else
          match r3 with
          | u :: r4 =>
            if u = 'H' ∨ u = 'M' ∨ u = 'S' then ((c :: ds, fs), u) :: findDurF fuel r4
            else findDurF fuel cs
          | [] => findDurF fuel cs
      | u :: r2 =>
        if u = 'H' ∨ u = 'M' ∨ u = 'S' then ((c :: ds, []), u) :: findDurF fuel r2
        else findDurF fuel cs
      | [] => []
    else findDurF fuel cs

/-- The body of the accumulation loop of `_parse_duration`: `float(value)`
then the `H`/`M`/`S` `elif` chain. -/
def durStep (acc : ℚ) (p : (List Char × List Char) × Char) : ℚ :=
  if p.2 = 'H' then acc + ratOfParts p.1.1 p.1.2 * 3600
  else if p.2 = 'M' then acc + ratOfParts p.1.1 p.1.2 * 60
  else if p.2 = 'S' then acc + ratOfParts p.1.1 p.1.2
  else acc

/-- The accumulation loop of `_parse_duration`. -/
def durSum (ps : List ((List Char × List Char) × Char)) : ℚ :=
  ps.foldl durStep 0

/-- `_parse_duration`: `0.0` unless the string starts with `"PT"` (this also
covers the `not duration_str` guard), otherwise the sum of the recognized
`<number><unit>` contributions found after the prefix. -/
def parseDuration (s : String) : ℚ :=
  if "PT".data.isPrefixOf s.data then durSum (findDurF s.data.length (s.data.drop 2))
  else 0

/-! ### `_format_template` (server.py lines 29–36) -/

/-- `[\da-zA-Z]` (ASCII model of the format-specifier character class). -/
def isFmtChar (c : Char) : Bool :=
  c.isDigit || (('a' ≤ c && c ≤ 'z') || ('A' ≤ c && c ≤ 'Z'))

/-- Try to match `(name)(%[\da-zA-Z]+)?\$` at the head of `cs` (the chars
after an opening `$`).  Returns the optional format group (with its `%`) and
the characters after the closing `$`. -/
def tryPH (name : List Char) (cs : List Char) : Option (Option (List Char) × List Char) :=
  if name.isPrefixOf cs then
    match cs.drop name.length with
    | '$' :: rest => some (none, rest)
    | '%' :: r1 =>
      let fmtd := r1.takeWhile isFmtChar
      let r2 := r1.dropWhile isFmtChar
      if fmtd.isEmpty then none
      else
        match r2 with
        | '$' :: rest => some (some ('%' :: fmtd), rest)
        | _ => none
    | _ => none
  else none

/-- The alternation `(Number|Time)` of the placeholder regex.  The returned
`Bool` is `true` for `Number`. -/
def matchPH (cs : List Char) : Option (Bool × Option (List Char) × List Char) :=
  match tryPH "Number".data cs with
  | some (fmt, rest) => some (true, fmt, rest)
  | none =>
    match tryPH "Time".data cs with
    | some (fmt, rest) => some (false, fmt, rest)
    | none => none

/-- Left pad with a a given character up to a given width. -/
def leftPad (c : Char) (w : Nat) (s : String) : String :=
  String.mk (List.replicate (w - s.length) c) ++ s

/-- Python's `format(v, spec)` for the decimal specs that DASH templates use
(`d` with optional `0`-fill and width, e.g. `05d`).  Specs outside this
subset fall back to the plain decimal rendering; the source never feeds such
a spec on the paths verified here (in Python they would raise `ValueError`,
swallowed by the `except Exception` handler of `parse_mpd`). -/
def applyFmt (spec : List Char) (v : Int) : String :=
  match spec.getLast? with
  | some 'd' =>
    let ws := spec.dropLast
    if ws.all Char.isDigit then
      match ws with
      | [] => toString v
      | w0 :: _ =>
        let width := digitsToNat ws
        if w0 = '0' then
          if v < 0 then "-" ++ leftPad '0' (width - 1) (toString (-v))
          else leftPad '0' width (toString v)
        else leftPad ' ' width (toString v)
    else toString v
  | _ => toString v

/-- `replace_func` of `_format_template`: a missing value renders empty, a
format group is applied after `lstrip('%')`, otherwise `str(value)`. -/
def phRender (v : Option Int) (fmt : Option (List Char)) : List Char :=
  match v with
  | none => []
  | some n =>
    match fmt with
    | none => (toString n).data
    | some f => (applyFmt (f.dropWhile (· = '%')) n).data

/-- The `re.sub` scan of `_format_template`: at each `$` attempt a
placeholder match (substituting via `phRender`), otherwise copy the
character.  A failed attempt leaves the `$` literal and resumes one
character later, as the regex engine does. -/
def fmtCoreF (number time : Option Int) : Nat → List Char → List Char
  | 0, _ => []
  | _ + 1, [] => []
  | fuel + 1, c :: cs =>
    if c = '$' then
      match matchPH cs with
      | some (isNum, fmt, rest) =>
        phRender (if isNum then number else time) fmt ++ fmtCoreF number time fuel rest
      | none => '$' :: fmtCoreF number time fuel cs
    else c :: fmtCoreF number time fuel cs

/-- `_format_template(template_str, number, time)`. -/
def fmtTemplate (t : String) (number time : Option Int) : String :=
  String.mk (fmtCoreF number time t.data.length t.data)

/-- The literal marker replaced at the `_format_template` call sites. -/
def repIdPat : List Char := "$RepresentationID$".data

/-- Python's `str.replace('$RepresentationID$', rid)`: left-to-right,
non-overlapping, all occurrences. -/
def replRepF (rid : List Char) : Nat → List Char → List Char
  | 0, _ => []
  | _ + 1, [] => []
  | fuel + 1, c :: cs =>
    if repIdPat.isPrefixOf (c :: cs) then
      rid ++ replRepF rid fuel ((c :: cs).drop repIdPat.length)
    else c :: replRepF rid fuel cs

/-- `_format_template(...).replace('$RepresentationID$', rep_id)` — the
composition used for every URL the parser builds. -/
def expandWithRep (tmpl : String) (number time : Option Int) (repId : String) : String :=
  let f := fmtTemplate tmpl number time
  String.mk (replRepF repId.data f.data.length f.data)

/-- `urllib.parse.urljoin(base, rel)` for the cases exercised by the proxy:
an absolute `http(s)` URL replaces the base, otherwise the relative path is
appended to the base directory (which `parse_mpd` always terminates with
`/`). -/
def urljoin (base rel : String) : String :=
  if "http://".data.isPrefixOf rel.data || "https://".data.isPrefixOf rel.data then rel
  else base ++ rel

/-! ### Data model of the parsed manifest (parse_mpd, lines 38–155)

Attributes are modelled after `int()` conversion; a conversion failure in
Python is one more case of the `except Exception` handler, which the
`internalErr` fetch outcome below accounts for. -/

/-- One `<S>` tag of a `SegmentTimeline` (`d`, `t`, `r` attributes; `none`
means the attribute is absent). -/
structure SEntry where
  d : Option Int
  t : Option Int
  r : Option Int
deriving Repr, DecidableEq

/-- A `<SegmentTemplate>` element's attributes and timeline. -/
structure SegTemplate where
  initialization : Option String
  media : Option String
  startNumber : Option Int
  timescale : Option Int
  duration : Option Int
  timeline : Option (List SEntry)
deriving Repr, DecidableEq

/-- A `<Representation>` element (named to avoid clashing with Mathlib). -/
structure MPDRepresentation where
  id : Option String
  bandwidth : Option Int
  template : Option SegTemplate
deriving Repr, DecidableEq

/-- An `<AdaptationSet>` element. -/
structure AdaptationSet where
  contentType : Option String
  template : Option SegTemplate
  representations : List MPDRepresentation
deriving Repr, DecidableEq

/-- The parsed MPD document: root attributes and the first `<Period>` (with
its adaptation sets), `none` when no period exists. -/
structure MPDDoc where
  mpdType : Option String
  mediaPresentationDuration : Option String
  period : Option (List AdaptationSet)
deriving Repr, DecidableEq

/-- The track dictionaries stored in `tracks[key]`. -/
structure Track where
  key : String
  id : String
  type : String
  bandwidth : Int
  urls : List String
deriving Repr, DecidableEq

/-! ### Segment enumeration -/

/-- The inner `for _ in range(r + 1)` loop of the timeline branch: emit
`(current_number, current_time)`, then advance time by `d` and the number
by 1. -/
def entryEmit (d : Int) : Int → Int → Nat → List (Int × Int)
  | _, _, 0 => []
  | num, time, k + 1 => (num, time) :: entryEmit d (num + 1) (time + d) k

/-- Processing of one `<S>` tag from cursor state `(number, time)`: a
missing `d` skips the tag; an explicit `t` resets the time cursor; `r`
defaults to 0 and `range(r + 1)` iterates `(r + 1).toNat` times. -/
def timelineStep (st : Int × Int) (e : SEntry) : (Int × Int) × List (Int × Int) :=
  match e.d with
  | none => (st, [])
  | some d =>
    let t0 := e.t.getD st.2
    let k := (e.r.getD 0 + 1).toNat
    ((st.1 + k, t0 + d * k), entryEmit d st.1 t0 k)

/-- The full timeline enumeration: document order, number cursor starting at
`startNumber`, time cursor starting at 0. -/
def timelinePairs (startNumber : Int) (entries : List SEntry) : List (Int × Int) :=
  (entries.foldl (fun acc e =>
    let s := timelineStep acc.1 e
    (s.1, acc.2 ++ s.2)) ((startNumber, 0), [])).2

/-- The guard and segment count of the VOD fallback branch:
`ceil(media_duration / (seg_duration_units / timescale))` when all three
quantities are positive, otherwise the representation is skipped. -/
def durationCount (mediaDuration : ℚ) (timescale segDur : Int) : Option Nat :=
  if segDur > 0 ∧ timescale > 0 ∧ mediaDuration > 0 then
    some (Int.ceil (mediaDuration / ((segDur : ℚ) / (timescale : ℚ)))).toNat
  else none

/-- The URL list built by the VOD fallback loop: consecutive numbers from
`startNumber`, no time substitution. -/
def durationUrls (base mediaT repId : String) (startNumber : Int) (cnt : Nat) : List String :=
  (List.range cnt).map (fun (i : Nat) =>
    urljoin base (expandWithRep mediaT (some (startNumber + (i : Int))) none repId))

/-- The URL list built by the timeline branch. -/
def timelineUrls (base mediaT repId : String) (startNumber : Int) (entries : List SEntry) : List String :=
  (timelinePairs startNumber entries).map
    (fun p => urljoin base (expandWithRep mediaT (some p.1) (some p.2) repId))

/-! ### The per-representation body of parse_mpd (lines 62–140) -/

/-- The body of the representation loop once an id and an effective template
exist: builds the optional init URL, requires a truthy media pattern,
enumerates media URLs by timeline or by duration, and drops the
representation when the accumulated `urls` list is empty. -/
def processRepTmpl (base : String) (mediaDuration : ℚ) (contentType repId : String)
    (bandwidth : Int) (tmpl : SegTemplate) : Option (String × Track) :=
  let key := contentType ++ "_" ++ repId
  let initUrls : List String :=
    match truthyStr tmpl.initialization with
    | some initT => [urljoin base (expandWithRep initT none none repId)]
    | none => []
  match truthyStr tmpl.media with
  | none => none
  | some mediaT =>
    let startNumber := tmpl.startNumber.getD 1
    let urls? : Option (List String) :=
      match tmpl.timeline with
      | some entries => some (initUrls ++ timelineUrls base mediaT repId startNumber entries)
      | none =>
        match durationCount mediaDuration (tmpl.timescale.getD 1) (tmpl.duration.getD 0) with
        | none => none
        | some cnt => some (initUrls ++ durationUrls base mediaT repId startNumber cnt)
    match urls? with
    | none => none
    | some urls =>
      if urls.isEmpty then none
      else some (key, { key := key, id := repId, type := contentType,
                        bandwidth := bandwidth, urls := urls })

/-- One iteration of the representation loop: skip on a falsy id, resolve
the effective template (own template first, else the adaptation set's),
skip when neither exists. -/
def processRep (base : String) (mediaDuration : ℚ) (contentType : String)
    (asTmpl : Option SegTemplate) (rep : MPDRepresentation) : Option (String × Track) :=
  match truthyStr rep.id with
  | none => none
  | some repId =>
    match rep.template with
    | some tmpl => processRepTmpl base mediaDuration contentType repId (rep.bandwidth.getD 0) tmpl
    | none =>
      match asTmpl with
      | some tmpl => processRepTmpl base mediaDuration contentType repId (rep.bandwidth.getD 0) tmpl
      | none => none

/-- Python dict insertion `tracks[key] = v`: replace in place when the key
exists, else append (preserving iteration order). -/
def upsert : List (String × Track) → String → Track → List (String × Track)
  | [], k, v => [(k, v)]
  | (k', v') :: rest, k, v =>
    if k' = k then (k, v) :: rest else (k', v') :: upsert rest k v

/-- `parse_mpd` after a successful fetch and XML parse: `none` models the
`return None, None` taken when no `<Period>` exists; otherwise the track
dictionary accumulated over all adaptation sets and representations,
together with the root `type` attribute (default `"static"`). -/
def parseMpd (base : String) (doc : MPDDoc) : Option (List (String × Track) × String) :=
  let mpdType := doc.mpdType.getD "static"
  match doc.period with
  | none => none
  | some adaptationSets =>
    let mediaDuration := parseDuration (doc.mediaPresentationDuration.getD "")
    let tracks := adaptationSets.foldl (fun acc aset =>
      let contentType := aset.contentType.getD "unknown"
      aset.representations.foldl (fun acc2 rep =>
        match processRep base mediaDuration contentType aset.template rep with
        | none => acc2
        | some (k, tr) => upsert acc2 k tr) acc) []
    some (tracks, mpdType)

/-- The outcome of the fetch/XML stage feeding `parse_mpd`: network failure,
malformed XML, any other internal exception (all three are caught and map to
`(None, None)`), or a parsed document with its effective base URL. -/
inductive FetchParse where
  | netErr
  | xmlErr
  | internalErr
  | ok (baseUrl : String) (doc : MPDDoc)

/-- `parse_mpd` over its whole error dimension. -/
def parseMpdTop : FetchParse → Option (List (String × Track) × String)
  | .netErr => none
  | .xmlErr => none
  | .internalErr => none
  | .ok base doc => parseMpd base doc

/-! ### The stream route handler (lines 281–313) -/

/-- The HTTP status decided by the `stream` handler before any byte is
streamed: 404 for a kind outside `{video, audio}`; 500 when `parse_mpd`
returned `None` or an empty dict (`if not initial_tracks`); 404 when no key
contains the kind (`stream_type in k.lower()`); 500 when the matching
tracks all have empty URL lists; 200 otherwise.  The DRM probe the handler
runs first only prints a warning and cannot change the status. -/
def streamStatus (streamType : String) (parseResult : Option (List (String × Track) × String)) : Nat :=
  if streamType = "video" ∨ streamType = "audio" then
    match parseResult with
    | none => 500
    | some (tracks, _) =>
      if tracks.isEmpty then 500
      else
        let target := tracks.filter (fun kv => pyIn streamType (pyLower kv.1))
        if target.isEmpty then 404
        else
          let valid := target.filter (fun kv => !kv.2.urls.isEmpty)
          if valid.isEmpty then 500 else 200
  else 404

/-- `max(valid_tracks.values(), key=lambda t: t['bandwidth'])` composed with
the two dictionary comprehensions that filter by kind and by non-empty URL
list.  Python's `max` keeps the first element among ties (it replaces the
candidate only on a strictly greater key). -/
def selectTrack (streamType : String) (tracks : List (String × Track)) : Option Track :=
  let target := tracks.filter (fun kv => pyIn streamType (pyLower kv.1))
  let valid := target.filter (fun kv => !kv.2.urls.isEmpty)
  match valid.map Prod.snd with
  | [] => none
  | t :: ts => some (ts.foldl (fun best x => if x.bandwidth > best.bandwidth then x else best) t)

/-! ### The producer thread `segment_fetcher` (lines 168–224)

Fetch outcomes, the re-parse outcomes of live mode and the `stop_event`
samples are oracles indexed by a step counter.  The `while` loops are
fuel-indexed: exhausted fuel plays the role of a cancellation observed at
that iteration (the Python loops run until `stop_event` fires or, in live
mode, the track disappears). -/

/-- Outcome of one `session.get(segment_url, timeout=10)`: success with the
body bytes, a `requests.RequestException` (logged and skipped), or any other
exception (propagates to the `except`/`finally` of the thread). -/
inductive FetchRes where
  | ok (content : List UInt8)
  | fail
  | fatal
deriving Repr, DecidableEq

/-- How the producer body ended. -/
inductive ExitKind where
  | cancelled
  | trackGone
  | internalError
deriving Repr, DecidableEq

/-- One pass of the VOD `for` loop over the precomputed URL list: checks the
stop signal before each segment, pushes successful fetch bodies, skips
failed fetches, aborts on a fatal error.  Returns the pushed payloads, the
next step index and whether a fatal error occurred. -/
def vodPass (fetch : Nat → FetchRes) (stop : Nat → Bool) :
    List String → Nat → List (List UInt8) × Nat × Bool
  | [], step => ([], step, false)
  | _u :: us, step =>
    if stop step then ([], step, false)
    else
      match fetch step with
      | .ok b =>
        let r := vodPass fetch stop us (step + 1)
        (b :: r.1, r.2.1, r.2.2)
      | .fail => vodPass fetch stop us (step + 1)
      | .fatal => ([], step, true)

/-- The VOD `while not stop_event.is_set()` loop (the stream logically loops
over the URL list forever): fuel bounds the number of passes, exhaustion
standing for a cancellation observed there. -/
def vodBody (fetch : Nat → FetchRes) (stop : Nat → Bool) (urls : List String) :
    Nat → Nat → List (List UInt8) × ExitKind
  | 0, _ => ([], .cancelled)
  | fuel + 1, step =>
    if stop step then ([], .cancelled)
    else
      let p := vodPass fetch stop urls (step + 1)
      if p.2.2 then (p.1, .internalError)
      else
        let r := vodBody fetch stop urls fuel (p.2.1 + 1)
        (p.1 ++ r.1, r.2)

/-- Python dict lookup `tracks[key]` guarded by `key in tracks`. -/
def lookupTrack (tracks : List (String × Track)) (k : String) : Option Track :=
  match tracks.find? (fun kv => kv.1 = k) with
  | some kv => some kv.2
  | none => none

/-- The live `for segment_url in all_current_urls` loop: stop checked each
iteration; URLs already in `sent_segments` are skipped; a successful fetch
is pushed and then added to `sent_segments`; a failed fetch is skipped and
NOT marked seen (it will be retried on a later pass); a fatal error aborts.
Returns (yielded url/payload pairs, new seen set, next step, fatal?). -/
def liveSegLoop (fetch : Nat → FetchRes) (stop : Nat → Bool) :
    List String → List String → Nat →
      List (String × List UInt8) × List String × Nat × Bool
  | [], seen, step => ([], seen, step, false)
  | u :: us, seen, step =>
    if stop step then ([], seen, step, false)
    else if u ∈ seen then liveSegLoop fetch stop us seen (step + 1)
    else
      match fetch step with
      | .ok b =>
        let r := liveSegLoop fetch stop us (u :: seen) (step + 1)
        ((u, b) :: r.1, r.2.1, r.2.2.1, r.2.2.2)
      | .fail => liveSegLoop fetch stop us seen (step + 1)
      | .fatal => ([], seen, step, true)

/-- The live `while not stop_event.is_set()` reconciliation loop:
re-parse (a `None` or empty result waits and retries), stop when the track
key disappeared or its fresh URL list is empty, otherwise run the segment
loop and continue with the grown seen set.  (`found_new` in the source only
chooses whether to sleep and is irrelevant to the queue protocol.) -/
def liveBody (parse : Nat → Option (List (String × Track))) (fetch : Nat → FetchRes)
    (stop : Nat → Bool) (trackKey : String) :
    Nat → List String → Nat → List (String × List UInt8) × List String × ExitKind
  | 0, seen, _ => ([], seen, .cancelled)
  | fuel + 1, seen, step =>
    if stop step then ([], seen, .cancelled)
    else
      match parse step with
      | none => liveBody parse fetch stop trackKey fuel seen (step + 1)
      | some lt =>
        if lt.isEmpty then liveBody parse fetch stop trackKey fuel seen (step + 1)
        else
          match lookupTrack lt trackKey with
          | none => ([], seen, .trackGone)
          | some tr =>
            if tr.urls.isEmpty then ([], seen, .trackGone)
            else
              let r := liveSegLoop fetch stop tr.urls seen (step + 1)
              if r.2.2.2 then (r.1, r.2.1, .internalError)
              else
                let r2 := liveBody parse fetch stop trackKey fuel r.2.1 (r.2.2.1 + 1)
                (r.1 ++ r2.1, r2.2.1, r2.2.2)

/-- The sequence of values `segment_fetcher` puts into the bounded queue:
the payloads its body pushed (`q.put(resp.content)` only ever pushes
segment bytes) followed by the terminal `None` that the `finally` block
pushes on every exit path.  Live sessions start with an empty seen set. -/
def segmentFetcherTrace (mpdType : String) (parse : Nat → Option (List (String × Track)))
    (fetch : Nat → FetchRes) (stop : Nat → Bool) (track : Track) (fuel : Nat) :
    List (Option (List UInt8)) :=
  let pushed : List (List UInt8) :=
    if mpdType = "static" then (vodBody fetch stop track.urls fuel 0).1
    else ((liveBody parse fetch stop track.key fuel [] 0).1.map Prod.snd)
  pushed.map some ++ [none]

/-! ## Verification -/

/-! ### C9 — duration parser -/

/-- The contribution of one recognized `<number><unit>` pair to the total. -/
def unitContrib (p : (List Char × List Char) × Char) : ℚ :=
  if p.2 = 'H' then ratOfParts p.1.1 p.1.2 * 3600
  else if p.2 = 'M' then ratOfParts p.1.1 p.1.2 * 60
  else if p.2 = 'S' then ratOfParts p.1.1 p.1.2
  else 0

theorem durStep_eq (acc : ℚ) (p : (List Char × List Char) × Char) :
    durStep acc p = acc + unitContrib p := by
  unfold durStep unitContrib
  split_ifs <;> ring

theorem foldl_durStep (ps : List ((List Char × List Char) × Char)) :
    ∀ acc : ℚ, ps.foldl durStep acc = acc + (ps.map unitContrib).sum := by
  induction ps with
  | nil => intro acc; simp
  | cons p ps ih =>
    intro acc
    rw [List.foldl_cons, durStep_eq, ih, List.map_cons, List.sum_cons]
    ring

theorem durSum_eq_sum (ps : List ((List Char × List Char) × Char)) :
    durSum ps = (ps.map unitContrib).sum := by
  rw [durSum, foldl_durStep, zero_add]

theorem findDurF_units : ∀ (fuel : Nat) (l : List Char) (p : (List Char × List Char) × Char),
    p ∈ findDurF fuel l → p.2 = 'H' ∨ p.2 = 'M' ∨ p.2 = 'S' := by
  intro fuel
  induction fuel with
  | zero => intro l p h; simp [findDurF] at h
  | succ fuel ih =>
    intro l p h
    match l with
    | [] => simp [findDurF] at h
    | c :: cs =>
      simp only [findDurF] at h
      repeat' split at h
      all_goals
        first
          | exact ih _ _ h
          | (rcases List.mem_cons.mp h with rfl | h
             · assumption
             · exact ih _ _ h)
          | simp at h

/-- C9: a string not starting with the literal prefix `PT` (including the
empty string) parses to exactly 0 with no error; a string starting with `PT`
parses to the sum, over the recognized `<number><unit>` pairs (possibly
fractional numbers, units always `H`, `M` or `S`), of value·3600 for `H`,
value·60 for `M` and value for `S`; unrecognized text anywhere — including
trailing text — is ignored, as the concrete instances illustrate. -/
theorem c9_duration_semantics :
    (∀ s : String, ¬ "PT".data.isPrefixOf s.data = true → parseDuration s = 0) ∧
    (∀ s : String, "PT".data.isPrefixOf s.data = true →
      parseDuration s = ((findDurF s.data.length (s.data.drop 2)).map unitContrib).sum ∧
      ∀ p ∈ findDurF s.data.length (s.data.drop 2), p.2 = 'H' ∨ p.2 = 'M' ∨ p.2 = 'S') ∧
    parseDuration "" = 0 ∧
    parseDuration "10S" = 0 ∧
    parseDuration "PT1H" = 3600 ∧
    parseDuration "PT2M" = 120 ∧
    parseDuration "PT3S" = 3 ∧
    parseDuration "PT1.5H2M30Sxyz" = 5550 := by
  refine ⟨?_, ?_, ?_, ?_, ?_, ?_, ?_, ?_⟩
  · intro s h
    rw [parseDuration, if_neg h]
  · intro s h
    refine ⟨?_, fun p hp => findDurF_units _ _ p hp⟩
    rw [parseDuration, if_pos h, durSum_eq_sum]
  · decide
  · decide
  · rw [parseDuration, if_pos (by decide),
      show findDurF "PT1H".data.length ("PT1H".data.drop 2) = [(("1".data, []), 'H')] from by decide,
      durSum_eq_sum, List.map_cons, List.map_nil, List.sum_cons, List.sum_nil,
      show unitContrib (("1".data, ([] : List Char)), 'H') = ratOfParts "1".data [] * 3600 from rfl]
    norm_num [ratOfParts, show digitsToNat "1".data = 1 from by decide,
      show digitsToNat ([] : List Char) = 0 from by decide]
  · rw [parseDuration, if_pos (by decide),
      show findDurF "PT2M".data.length ("PT2M".data.drop 2) = [(("2".data, []), 'M')] from by decide,
      durSum_eq_sum, List.map_cons, List.map_nil, List.sum_cons, List.sum_nil,
      show unitContrib (("2".data, ([] : List Char)), 'M') = ratOfParts "2".data [] * 60 from rfl]
    norm_num [ratOfParts, show digitsToNat "2".data = 2 from by decide,
      show digitsToNat ([] : List Char) = 0 from by decide]
  · rw [parseDuration, if_pos (by decide),
      show findDurF "PT3S".data.length ("PT3S".data.drop 2) = [(("3".data, []), 'S')] from by decide,
      durSum_eq_sum, List.map_cons, List.map_nil, List.sum_cons, List.sum_nil,
      show unitContrib (("3".data, ([] : List Char)), 'S') = ratOfParts "3".data [] from rfl]
    norm_num [ratOfParts, show digitsToNat "3".data = 3 from by decide,
      show digitsToNat ([] : List Char) = 0 from by decide]
  · rw [parseDuration, if_pos (by decide),
      show findDurF "PT1.5H2M30Sxyz".data.length ("PT1.5H2M30Sxyz".data.drop 2)
          = [(("1".data, "5".data), 'H'), (("2".data, []), 'M'), (("30".data, []), 'S')] from by decide,
      durSum_eq_sum]
    simp only [List.map_cons, List.map_nil, List.sum_cons, List.sum_nil]
    rw [show unitContrib (("1".data, "5".data), 'H') = ratOfParts "1".data "5".data * 3600 from rfl,
      show unitContrib (("2".data, ([] : List Char)), 'M') = ratOfParts "2".data [] * 60 from rfl,
      show unitContrib (("30".data, ([] : List Char)), 'S') = ratOfParts "30".data [] from rfl]
    norm_num [ratOfParts, show digitsToNat "1".data = 1 from by decide,
      show digitsToNat "5".data = 5 from by decide,
      show digitsToNat "2".data = 2 from by decide,
      show digitsToNat "30".data = 30 from by decide,
      show digitsToNat ([] : List Char) = 0 from by decide]

/-- Witness for C9 at concrete inputs. -/
theorem c9_duration_semantics_witness :
    parseDuration "abc" = 0 ∧
    parseDuration "PT90M" = ((findDurF "PT90M".data.length ("PT90M".data.drop 2)).map unitContrib).sum :=
  ⟨c9_duration_semantics.1 "abc" (by decide), (c9_duration_semantics.2.1 "PT90M" (by decide)).1⟩

/-! ### C3 — timeline enumeration -/

theorem entryEmit_eq_map (d : Int) : ∀ (k : Nat) (num t0 : Int),
    entryEmit d num t0 k
      = (List.range k).map (fun (i : Nat) => (num + (i : Int), t0 + d * (i : Int))) := by
  intro k
  induction k with
  | zero => intro num t0; simp [entryEmit]
  | succ k ih =>
    intro num t0
    rw [entryEmit, ih, List.range_succ_eq_map, List.map_cons, List.map_map]
    congr 1
    · simp
    · refine List.map_congr_left (fun i _ => ?_)
      simp only [Function.comp_apply, Prod.mk.injEq]
      push_cast
      constructor <;> ring

/-- C3: a timeline entry with duration `d` and repeat count `r ≥ 0`
(default 0) contributes exactly `r + 1` media URLs; the emitted pairs start
at the current number cursor and at the explicit `t` if present (otherwise
the carried-over time cursor), advancing the number by 1 and the time by `d`
per URL; afterwards the cursors stand at `number + (r + 1)` and
`t₀ + d·(r + 1)`.  The initial cursors are `startNumber` and time 0, and on
`<S d="2" r="2"/><S d="3"/>` with `startNumber = 1` the enumeration yields
exactly the four pairs with numbers 1,2,3,4 and times 0,2,4,6. -/
theorem c3_timeline_enumeration :
    (∀ (st : Int × Int) (e : SEntry) (d : Int), e.d = some d → 0 ≤ e.r.getD 0 →
      (timelineStep st e).2
          = (List.range (e.r.getD 0 + 1).toNat).map
              (fun (i : Nat) => (st.1 + (i : Int), e.t.getD st.2 + d * (i : Int))) ∧
      (timelineStep st e).1
          = (st.1 + (e.r.getD 0 + 1), e.t.getD st.2 + d * (e.r.getD 0 + 1))) ∧
    timelinePairs 1 [⟨some 2, none, some 2⟩, ⟨some 3, none, none⟩]
        = [(1, 0), (2, 2), (3, 4), (4, 6)] := by
  constructor
  · intro st e d hd hr
    have hk : (((e.r.getD 0 + 1).toNat : Nat) : Int) = e.r.getD 0 + 1 :=
      Int.toNat_of_nonneg (by omega)
    constructor
    · simp only [timelineStep, hd]
      exact entryEmit_eq_map d _ st.1 (e.t.getD st.2)
    · simp only [timelineStep, hd, hk]
  · decide

/-- Witness for C3: the first timeline entry of the worked example. -/
theorem c3_timeline_enumeration_witness :
    (timelineStep ((1 : Int), (0 : Int)) ⟨some 2, none, some 2⟩).2
        = (List.range (((⟨some 2, none, some 2⟩ : SEntry).r.getD 0 + 1).toNat)).map
            (fun (i : Nat) => ((1 : Int) + (i : Int),
              (⟨some 2, none, some 2⟩ : SEntry).t.getD 0 + 2 * (i : Int))) :=
  (c3_timeline_enumeration.1 (1, 0) ⟨some 2, none, some 2⟩ 2 rfl (by decide)).1

/-! ### C4 — duration-based enumeration -/

/-- C4: with positive total duration, timescale and segment duration units,
the VOD fallback produces exactly `ceil(totalDuration /
(segmentDurationUnits / timescale))` media URLs, numbered consecutively from
`startNumber` with no time substitution; if any of the three quantities is
non-positive the enumeration yields nothing and the representation is
skipped (even when an initialization pattern exists); on the spec's worked
example (`PT20S`, `timescale=1`, `duration=4`) the count is 5. -/
theorem c4_duration_enumeration :
    (∀ (md : ℚ) (ts sd : Int), sd > 0 → ts > 0 → md > 0 →
        durationCount md ts sd = some (Int.ceil (md / ((sd : ℚ) / (ts : ℚ)))).toNat) ∧
    (∀ (md : ℚ) (ts sd : Int), ¬ (sd > 0 ∧ ts > 0 ∧ md > 0) →
        durationCount md ts sd = none) ∧
    (∀ (base m rid : String) (sn : Int) (cnt : Nat),
        (durationUrls base m rid sn cnt).length = cnt ∧
        ∀ i : Nat, i < cnt →
          (durationUrls base m rid sn cnt)[i]?
              = some (urljoin base (expandWithRep m (some (sn + (i : Int))) none rid))) ∧
    (∀ (md : ℚ) (tmpl : SegTemplate), tmpl.timeline = none →
        durationCount md (tmpl.timescale.getD 1) (tmpl.duration.getD 0) = none →
        ∀ base ct rid bw, processRepTmpl base md ct rid bw tmpl = none) ∧
    durationCount (parseDuration "PT20S") 1 4 = some 5 := by
  refine ⟨?_, ?_, ?_, ?_, ?_⟩
  · intro md ts sd h1 h2 h3
    rw [durationCount, if_pos ⟨h1, h2, h3⟩]
  · intro md ts sd h
    rw [durationCount, if_neg h]
  · intro base m rid sn cnt
    refine ⟨by simp [durationUrls], fun i hi => ?_⟩
    simp [durationUrls, List.getElem?_map, List.getElem?_range hi]
  · intro md tmpl htl hdc base ct rid bw
    simp only [processRepTmpl, htl, hdc]
    split <;> rfl
  · have h20 : parseDuration "PT20S" = 20 := by
      rw [parseDuration, if_pos (by decide),
        show findDurF "PT20S".data.length ("PT20S".data.drop 2) = [(("20".data, []), 'S')] from by decide,
        durSum_eq_sum, List.map_cons, List.map_nil, List.sum_cons, List.sum_nil,
        show unitContrib (("20".data, ([] : List Char)), 'S') = ratOfParts "20".data [] from rfl]
      norm_num [ratOfParts, show digitsToNat "20".data = 20 from by decide,
        show digitsToNat ([] : List Char) = 0 from by decide]
    rw [h20, durationCount, if_pos (by norm_num)]
    norm_num
    rfl

/-- Witness for C4 at the worked example's numbers. -/
theorem c4_duration_enumeration_witness :
    durationCount 20 1 4 = some (Int.ceil ((20 : ℚ) / ((4 : ℚ) / (1 : ℚ)))).toNat :=
  c4_duration_enumeration.1 20 1 4 (by norm_num) (by norm_num) (by norm_num)

/-! ### C5 — track selection -/

theorem foldlMax_mem_le (ts : List Track) : ∀ t : Track,
    (ts.foldl (fun best x => if x.bandwidth > best.bandwidth then x else best) t) ∈ t :: ts ∧
    ∀ x ∈ t :: ts,
      x.bandwidth ≤ (ts.foldl (fun best x => if x.bandwidth > best.bandwidth then x else best) t).bandwidth := by
  induction ts with
  | nil =>
    intro t
    constructor
    · simp
    · intro x hx
      simp only [List.mem_singleton] at hx
      simp [hx]
  | cons a ts ih =>
    intro t
    rw [List.foldl_cons]
    obtain ⟨hmem, hle⟩ := ih (if a.bandwidth > t.bandwidth then a else t)
    constructor
    · rcases List.mem_cons.mp hmem with h | h
      · rw [h]
        by_cases hb : a.bandwidth > t.bandwidth
        · simp [hb]
        · simp [hb]
      · exact List.mem_cons_of_mem _ (List.mem_cons_of_mem _ h)
    · intro x hx
      rcases List.mem_cons.mp hx with rfl | hx
      · refine le_trans ?_ (hle _ (List.mem_cons_self _ _))
        by_cases hb : a.bandwidth > x.bandwidth
        · simp [hb]; omega
        · simp [hb]
      rcases List.mem_cons.mp hx with rfl | hx
      · refine le_trans ?_ (hle _ (List.mem_cons_self _ _))
        by_cases hb : x.bandwidth > t.bandwidth
        · simp [hb]
        · simp [hb]; omega
      · exact hle x (List.mem_cons_of_mem _ hx)

/-- C5: whenever the selector returns a track, that track came from an entry
whose key contains the requested kind after lowercasing and whose URL list
is non-empty, and its bandwidth is maximal among all such entries — in
particular a track with an empty segment list is never selected, whatever
its declared bandwidth. -/
theorem c5_track_selection :
    ∀ (st : String) (tracks : List (String × Track)) (tr : Track),
      selectTrack st tracks = some tr →
      (∃ k, (k, tr) ∈ tracks ∧ pyIn st (pyLower k) = true ∧ tr.urls ≠ []) ∧
      ∀ (k' : String) (tr' : Track), (k', tr') ∈ tracks → pyIn st (pyLower k') = true →
        tr'.urls ≠ [] → tr'.bandwidth ≤ tr.bandwidth := by
  intro st tracks tr h
  simp only [selectTrack] at h
  split at h
  next heq => exact absurd h (by simp)
  next t ts heq =>
    obtain ⟨hmem, hle⟩ := foldlMax_mem_le ts t
    rw [← heq] at hmem hle
    have htr : tr ∈ (((tracks.filter (fun kv => pyIn st (pyLower kv.1))).filter
        (fun kv => !kv.2.urls.isEmpty)).map Prod.snd) := by
      rw [← Option.some.inj h]; exact hmem
    obtain ⟨kv, hkv, hkv2⟩ := List.mem_map.mp htr
    have hkvt := (List.mem_filter.mp hkv).1
    have hkvu := (List.mem_filter.mp hkv).2
    have hkvm := (List.mem_filter.mp hkvt).1
    have hkvp := (List.mem_filter.mp hkvt).2
    constructor
    · refine ⟨kv.1, ?_, hkvp, ?_⟩
      · rw [← hkv2]
        exact hkvm
      · rw [← hkv2]
        simpa using hkvu
    · intro k' tr' hmem' hin' hne'
      have hv : (k', tr') ∈ ((tracks.filter (fun kv => pyIn st (pyLower kv.1))).filter
          (fun kv => !kv.2.urls.isEmpty)) := by
        refine List.mem_filter.mpr ⟨List.mem_filter.mpr ⟨hmem', hin'⟩, ?_⟩
        simpa using hne'
      have := hle tr' (List.mem_map.mpr ⟨(k', tr'), hv, rfl⟩)
      rwa [Option.some.inj h] at this

/-- The concrete tracks used by the C5 witness: the higher-bandwidth video
track has an empty URL list. -/
def sampleTrackA : Track := ⟨"video_a", "a", "video", 100, []⟩

/-- The lower-bandwidth video track with a non-empty URL list. -/
def sampleTrackB : Track := ⟨"video_b", "b", "video", 50, ["u"]⟩

/-- The concrete track map used by the C5 witness. -/
def sampleTracks : List (String × Track) := [("video_a", sampleTrackA), ("video_b", sampleTrackB)]

/-- Witness for C5: the selector picks the lower-bandwidth non-empty track,
never the empty-list one with the highest bandwidth. -/
theorem c5_track_selection_witness :
    (∃ k, (k, sampleTrackB) ∈ sampleTracks ∧ pyIn "video" (pyLower k) = true ∧
        sampleTrackB.urls ≠ []) ∧
    ∀ (k' : String) (tr' : Track), (k', tr') ∈ sampleTracks →
      pyIn "video" (pyLower k') = true → tr'.urls ≠ [] →
      tr'.bandwidth ≤ sampleTrackB.bandwidth :=
  c5_track_selection "video" sampleTracks sampleTrackB (by decide)

/-! ### C10 — parser totality and track invariants -/

theorem processRepTmpl_inv {base : String} {md : ℚ} {ct rid : String} {bw : Int}
    {tmpl : SegTemplate} {k : String} {tr : Track}
    (h : processRepTmpl base md ct rid bw tmpl = some (k, tr)) :
    tr.urls ≠ [] ∧ k = tr.key ∧ tr.key = tr.type ++ "_" ++ tr.id := by
  simp only [processRepTmpl] at h
  split at h
  · exact absurd h (by simp)
  · split at h
    · exact absurd h (by simp)
    · split at h
      · exact absurd h (by simp)
      next hne =>
        have h2 := (Option.some.inj h).symm
        have hk : k = _ := congrArg Prod.fst h2
        have htr : tr = _ := congrArg Prod.snd h2
        subst hk
        subst htr
        exact ⟨by simpa using hne, rfl, rfl⟩

theorem processRep_inv {base : String} {md : ℚ} {ct : String}
    {asTmpl : Option SegTemplate} {rep : MPDRepresentation} {k : String} {tr : Track}
    (h : processRep base md ct asTmpl rep = some (k, tr)) :
    tr.urls ≠ [] ∧ k = tr.key ∧ tr.key = tr.type ++ "_" ++ tr.id := by
  simp only [processRep] at h
  split at h
  · exact absurd h (by simp)
  · split at h
    · exact processRepTmpl_inv h
    · split at h
      · exact processRepTmpl_inv h
      · exact absurd h (by simp)

theorem upsert_inv {P : String × Track → Prop} :
    ∀ (m : List (String × Track)) (k : String) (v : Track),
      (∀ kt ∈ m, P kt) → P (k, v) → ∀ kt ∈ upsert m k v, P kt := by
  intro m
  induction m with
  | nil =>
    intro k v _ hkv kt hkt
    simp only [upsert, List.mem_singleton] at hkt
    rw [hkt]; exact hkv
  | cons a m ih =>
    intro k v hm hkv kt hkt
    rw [upsert] at hkt
    split at hkt
    · rcases List.mem_cons.mp hkt with rfl | hkt
      · exact hkv
      · exact hm kt (List.mem_cons_of_mem _ hkt)
    · rcases List.mem_cons.mp hkt with rfl | hkt
      · exact hm _ (List.mem_cons_self _ _)
      · exact ih k v (fun kt h => hm kt (List.mem_cons_of_mem _ h)) hkv kt hkt

/-- The invariant carried by every entry of the parsed tracks dictionary. -/
def trackInv (kt : String × Track) : Prop :=
  kt.2.urls ≠ [] ∧ kt.1 = kt.2.key ∧ kt.2.key = kt.2.type ++ "_" ++ kt.2.id

theorem repsFold_inv (base : String) (md : ℚ) (ct : String) (asT : Option SegTemplate) :
    ∀ (reps : List MPDRepresentation) (acc : List (String × Track)),
      (∀ kt ∈ acc, trackInv kt) →
      ∀ kt ∈ reps.foldl (fun acc2 rep =>
          match processRep base md ct asT rep with
          | none => acc2
          | some (k, tr) => upsert acc2 k tr) acc, trackInv kt := by
  intro reps
  induction reps with
  | nil => intro acc hacc; exact hacc
  | cons rep reps ih =>
    intro acc hacc
    rw [List.foldl_cons]
    apply ih
    cases hr : processRep base md ct asT rep with
    | none => exact hacc
    | some kv =>
      obtain ⟨k, tr⟩ := kv
      obtain ⟨h1, h2, h3⟩ := processRep_inv hr
      exact upsert_inv acc k tr hacc ⟨h1, h2, h3⟩

theorem asetsFold_inv (base : String) (md : ℚ) :
    ∀ (asets : List AdaptationSet) (acc : List (String × Track)),
      (∀ kt ∈ acc, trackInv kt) →
      ∀ kt ∈ asets.foldl (fun acc aset =>
          aset.representations.foldl (fun acc2 rep =>
            match processRep base md (aset.contentType.getD "unknown") aset.template rep with
            | none => acc2
            | some (k, tr) => upsert acc2 k tr) acc) acc, trackInv kt := by
  intro asets
  induction asets with
  | nil => intro acc hacc; exact hacc
  | cons aset asets ih =>
    intro acc hacc
    rw [List.foldl_cons]
    exact ih _ (repsFold_inv base md _ aset.template aset.representations acc hacc)

/-- C10: over every fetch/parse outcome — network error, malformed XML, any
other internal exception, or a parsed document (with or without a period) —
`parse_mpd` returns either `none` (its `(None, None)`) or a tracks/mode
pair, never an exception; and every track of a returned map has a non-empty
URL list and sits under a key equal to its own `key` field, which is
`contentType ++ "_" ++ id`. -/
theorem c10_parser_totality :
    ∀ fp : FetchParse,
      parseMpdTop fp = none ∨
      ∃ tracks mode, parseMpdTop fp = some (tracks, mode) ∧ ∀ kt ∈ tracks, trackInv kt := by
  intro fp
  cases fp with
  | netErr => exact Or.inl rfl
  | xmlErr => exact Or.inl rfl
  | internalErr => exact Or.inl rfl
  | ok base doc =>
    rw [parseMpdTop]
    simp only [parseMpd]
    split
    · exact Or.inl rfl
    · right
      refine ⟨_, _, rfl, ?_⟩
      exact asetsFold_inv base _ _ [] (by intro kt hkt; simp at hkt)

/-! ### C1 — stream handler status codes -/

/-- A manifest that fetches and parses successfully, has a `<Period>`, but
yields zero usable representations. -/
def emptyPeriodDoc : MPDDoc := ⟨some "static", none, some []⟩

/-- Counterexample to C1 as stated: a successfully parsed manifest with zero
usable representations makes the handler answer 500 (its
`if not initial_tracks` treats the empty dict like a parse failure), not the
404 the claim requires for that case. -/
theorem c1_stream_status_counterexample :
    parseMpd "http://h/" emptyPeriodDoc = some ([], "static") ∧
    streamStatus "video" (parseMpd "http://h/" emptyPeriodDoc) = 500 ∧ ¬ (404 : Nat) = 500 := by
  refine ⟨by decide, by decide, by decide⟩

/-- C1 amended: for a valid kind, the response is 404 exactly when the parse
succeeded with a non-empty tracks dictionary in which no key contains the
kind; it is 500 when the parse failed, when the parse yielded an empty
dictionary (zero usable representations), or when matching keys exist but
every matching track's URL list is empty (a configuration the parser itself
never produces). -/
theorem c1_stream_status_amended :
    ∀ (st : String) (res : Option (List (String × Track) × String)),
      (st = "video" ∨ st = "audio") →
      ((streamStatus st res = 404 ↔
        ∃ tracks mode, res = some (tracks, mode) ∧ tracks ≠ [] ∧
          tracks.filter (fun kv => pyIn st (pyLower kv.1)) = []) ∧
       (streamStatus st res = 500 ↔
        (res = none ∨ ∃ tracks mode, res = some (tracks, mode) ∧
          (tracks = [] ∨ (tracks.filter (fun kv => pyIn st (pyLower kv.1)) ≠ [] ∧
            (tracks.filter (fun kv => pyIn st (pyLower kv.1))).filter
              (fun kv => !kv.2.urls.isEmpty) = []))))) := by
  intro st res hst
  rw [streamStatus.eq_def, if_pos hst]
  cases res with
  | none => simp
  | some p =>
    obtain ⟨tracks, mode⟩ := p
    dsimp only
    by_cases h0 : tracks.isEmpty
    · rw [if_pos h0]
      have h0' : tracks = [] := List.isEmpty_iff.mp h0
      subst h0'
      simp
    · rw [if_neg h0]
      have h0' : tracks ≠ [] := by simpa [List.isEmpty_iff] using h0
      by_cases h1 : (tracks.filter (fun kv => pyIn st (pyLower kv.1))).isEmpty
      · rw [if_pos h1]
        have h1' := List.isEmpty_iff.mp h1
        constructor
        · exact ⟨fun _ => ⟨tracks, mode, rfl, h0', h1'⟩, fun _ => rfl⟩
        · constructor
          · intro h; exact absurd h (by norm_num)
          · rintro (h | ⟨t', m', he, h⟩)
            · exact absurd h (by simp)
            · obtain ⟨rfl, rfl⟩ : tracks = t' ∧ mode = m' := by
                simpa [Prod.ext_iff] using he
              rcases h with h | ⟨h, _⟩
              · exact absurd h h0'
              · exact absurd h1' h
      · rw [if_neg h1]
        have h1' : tracks.filter (fun kv => pyIn st (pyLower kv.1)) ≠ [] := by
          simpa [List.isEmpty_iff] using h1
        by_cases h2 : ((tracks.filter (fun kv => pyIn st (pyLower kv.1))).filter
            (fun kv => !kv.2.urls.isEmpty)).isEmpty
        · rw [if_pos h2]
          have h2' := List.isEmpty_iff.mp h2
          constructor
          · constructor
            · intro h; exact absurd h (by norm_num)
            · rintro ⟨t', m', he, _, hfil⟩
              obtain ⟨rfl, rfl⟩ : tracks = t' ∧ mode = m' := by
                simpa [Prod.ext_iff] using he
              exact absurd hfil h1'
          · exact ⟨fun _ => Or.inr ⟨tracks, mode, rfl, Or.inr ⟨h1', h2'⟩⟩, fun _ => rfl⟩
        · rw [if_neg h2]
          have h2' : ((tracks.filter (fun kv => pyIn st (pyLower kv.1))).filter
              (fun kv => !kv.2.urls.isEmpty)) ≠ [] := by
            simpa [List.isEmpty_iff] using h2
          constructor
          · constructor
            · intro h; exact absurd h (by norm_num)
            · rintro ⟨t', m', he, _, hfil⟩
              obtain ⟨rfl, rfl⟩ : tracks = t' ∧ mode = m' := by
                simpa [Prod.ext_iff] using he
              exact absurd hfil h1'
          · constructor
            · intro h; exact absurd h (by norm_num)
            · rintro (h | ⟨t', m', he, h⟩)
              · exact absurd h (by simp)
              · obtain ⟨rfl, rfl⟩ : tracks = t' ∧ mode = m' := by
                  simpa [Prod.ext_iff] using he
                rcases h with h | ⟨_, h⟩
                · exact absurd h h0'
                · exact absurd h h2'

/-- Witness for the amended C1: a manifest with only an audio track answers
404 to a video request. -/
theorem c1_stream_status_amended_witness :
    streamStatus "video" (some ([("audio_a0", ⟨"audio_a0", "a0", "audio", 1, ["u"]⟩)], "static")) = 404 :=
  (c1_stream_status_amended "video" _ (Or.inl rfl)).1.mpr
    ⟨[("audio_a0", ⟨"audio_a0", "a0", "audio", 1, ["u"]⟩)], "static", rfl, by decide, by decide⟩

/-! ### C2 — zero-media representations -/

/-- The template of the C2 counterexample: an initialization pattern, a
media pattern, and a present-but-empty timeline. -/
def c2Tmpl : SegTemplate := ⟨some "init.mp4", some "m$Number$.mp4", none, none, none, some []⟩

/-- The manifest of the C2 counterexample: one video representation whose
timeline enumerates zero media URLs but which declares an init pattern. -/
def c2Doc : MPDDoc :=
  ⟨some "static", none, some [⟨some "video", none, [⟨some "v0", some 100, some c2Tmpl⟩]⟩]⟩

/-- Counterexample to C2 as stated: the representation's media enumeration
yields zero URLs, yet — because the `len(urls) == 0` check runs after the
init URL was appended — the representation stays in the tracks map with the
init URL as its only entry. -/
theorem c2_zero_media_counterexample :
    timelinePairs 1 [] = [] ∧
    parseMpd "http://h/" c2Doc
      = some ([("video_v0", ⟨"video_v0", "v0", "video", 100, ["http://h/init.mp4"]⟩)], "static") := by
  refine ⟨by decide, by decide⟩

/-- C2 amended: a representation whose media enumeration yields zero media
URLs is dropped only when it contributes no URL at all: with no (truthy)
initialization pattern the timeline path drops it, and the duration path
with failing parameters drops it unconditionally; but a timeline
representation with an init pattern is retained with the init URL as its
sole entry. -/
theorem c2_zero_media_amended :
    (∀ (base : String) (md : ℚ) (ct rid : String) (bw : Int) (tmpl : SegTemplate)
        (entries : List SEntry),
      tmpl.timeline = some entries →
      timelinePairs (tmpl.startNumber.getD 1) entries = [] →
      truthyStr tmpl.initialization = none →
      processRepTmpl base md ct rid bw tmpl = none) ∧
    (∀ (base : String) (md : ℚ) (ct rid : String) (bw : Int) (tmpl : SegTemplate),
      tmpl.timeline = none →
      durationCount md (tmpl.timescale.getD 1) (tmpl.duration.getD 0) = none →
      processRepTmpl base md ct rid bw tmpl = none) ∧
    (∀ (base : String) (md : ℚ) (ct rid : String) (bw : Int) (tmpl : SegTemplate)
        (entries : List SEntry) (initT mediaT : String),
      tmpl.timeline = some entries →
      timelinePairs (tmpl.startNumber.getD 1) entries = [] →
      truthyStr tmpl.initialization = some initT →
      truthyStr tmpl.media = some mediaT →
      ∃ tr : Track, processRepTmpl base md ct rid bw tmpl = some (ct ++ "_" ++ rid, tr) ∧
        tr.urls = [urljoin base (expandWithRep initT none none rid)]) := by
  refine ⟨?_, ?_, ?_⟩
  · intro base md ct rid bw tmpl entries htl hpairs hinit
    simp only [processRepTmpl, htl, hinit, timelineUrls, hpairs, List.map_nil, List.nil_append]
    split
    · rfl
    · rfl
  · intro base md ct rid bw tmpl htl hdc
    simp only [processRepTmpl, htl, hdc]
    split
    · rfl
    · rfl
  · intro base md ct rid bw tmpl entries initT mediaT htl hpairs hinit hmedia
    simp only [processRepTmpl, htl, hinit, hmedia, timelineUrls, hpairs, List.map_nil,
      List.append_nil]
    exact ⟨_, rfl, rfl⟩

/-- Witness for the amended C2: a timeline representation with an empty
timeline and no init pattern is dropped. -/
theorem c2_zero_media_amended_witness :
    processRepTmpl "http://h/" 0 "video" "v0" 0
      ⟨none, some "m$Number$.mp4", none, none, none, some []⟩ = none :=
  c2_zero_media_amended.1 "http://h/" 0 "video" "v0" 0
    ⟨none, some "m$Number$.mp4", none, none, none, some []⟩ [] rfl (by decide) rfl

/-! ### C6 — live reconciliation never re-yields -/

theorem liveSegLoop_inv (fetch : Nat → FetchRes) (stop : Nat → Bool) :
    ∀ (urls seen : List String) (step : Nat),
      (∀ y ∈ (liveSegLoop fetch stop urls seen step).1, y.1 ∉ seen) ∧
      ((liveSegLoop fetch stop urls seen step).1.map Prod.fst).Nodup ∧
      seen ⊆ (liveSegLoop fetch stop urls seen step).2.1 ∧
      (∀ y ∈ (liveSegLoop fetch stop urls seen step).1,
        y.1 ∈ (liveSegLoop fetch stop urls seen step).2.1) := by
  intro urls
  induction urls with
  | nil => intro seen step; simp [liveSegLoop]
  | cons u us ih =>
    intro seen step
    rw [liveSegLoop]
    by_cases hstop : stop step
    · simp [hstop]
    · rw [if_neg hstop]
      by_cases hseen : u ∈ seen
      · rw [if_pos hseen]
        exact ih seen (step + 1)
      · rw [if_neg hseen]
        cases hf : fetch step with
        | ok b =>
          obtain ⟨ih1, ih2, ih3, ih4⟩ := ih (u :: seen) (step + 1)
          refine ⟨?_, ?_, ?_, ?_⟩
          · intro y hy
            rcases List.mem_cons.mp hy with rfl | hy
            · exact hseen
            · exact fun hcon => ih1 y hy (List.mem_cons_of_mem _ hcon)
          · refine List.nodup_cons.mpr ⟨?_, ih2⟩
            intro hcon
            obtain ⟨y, hy, hy1⟩ := List.mem_map.mp hcon
            exact ih1 y hy (hy1 ▸ List.mem_cons_self _ _)
          · exact fun x hx => ih3 (List.mem_cons_of_mem _ hx)
          · intro y hy
            rcases List.mem_cons.mp hy with rfl | hy
            · exact ih3 (List.mem_cons_self _ _)
            · exact ih4 y hy
        | fail => exact ih seen (step + 1)
        | fatal => simp

/-- C6: over any number of reconciliation passes (any re-parse results, any
fetch outcomes, any cancellation schedule), the live producer never yields
the same URL twice — every yielded URL was outside the seen set it started
from, the full yield sequence has no duplicates, the seen set only grows,
and every yielded URL ends up in the final seen set.  The session itself
starts with the empty seen set (`segmentFetcherTrace` invokes `liveBody`
with `[]`). -/
theorem c6_live_no_reyield :
    ∀ (parse : Nat → Option (List (String × Track))) (fetch : Nat → FetchRes)
      (stop : Nat → Bool) (trackKey : String) (fuel : Nat) (seen : List String) (step : Nat),
      (∀ y ∈ (liveBody parse fetch stop trackKey fuel seen step).1, y.1 ∉ seen) ∧
      ((liveBody parse fetch stop trackKey fuel seen step).1.map Prod.fst).Nodup ∧
      seen ⊆ (liveBody parse fetch stop trackKey fuel seen step).2.1 ∧
      (∀ y ∈ (liveBody parse fetch stop trackKey fuel seen step).1,
        y.1 ∈ (liveBody parse fetch stop trackKey fuel seen step).2.1) := by
  intro parse fetch stop trackKey fuel
  induction fuel with
  | zero => intro seen step; simp [liveBody]
  | succ fuel ih =>
    intro seen step
    rw [liveBody]
    by_cases hstop : stop step
    · simp [hstop]
    · rw [if_neg hstop]
      cases hp : parse step with
      | none => exact ih seen (step + 1)
      | some lt =>
        dsimp only
        by_cases hlt : lt.isEmpty
        · rw [if_pos hlt]
          exact ih seen (step + 1)
        · rw [if_neg hlt]
          cases hlk : lookupTrack lt trackKey with
          | none => simp
          | some tr =>
            dsimp only
            by_cases hu : tr.urls.isEmpty
            · rw [if_pos hu]
              simp
            · rw [if_neg hu]
              obtain ⟨s1, s2, s3, s4⟩ := liveSegLoop_inv fetch stop tr.urls seen (step + 1)
              by_cases hfat : (liveSegLoop fetch stop tr.urls seen (step + 1)).2.2.2
              · rw [if_pos hfat]
                exact ⟨s1, s2, s3, s4⟩
              · rw [if_neg hfat]
                obtain ⟨b1, b2, b3, b4⟩ :=
                  ih (liveSegLoop fetch stop tr.urls seen (step + 1)).2.1
                    ((liveSegLoop fetch stop tr.urls seen (step + 1)).2.2.1 + 1)
                refine ⟨?_, ?_, ?_, ?_⟩
                · intro y hy
                  rcases List.mem_append.mp hy with hy | hy
                  · exact s1 y hy
                  · exact fun hcon => b1 y hy (s3 hcon)
                · rw [List.map_append]
                  refine List.Nodup.append s2 b2 ?_
                  intro a ha hb
                  obtain ⟨y, hy, hy1⟩ := List.mem_map.mp ha
                  obtain ⟨z, hz, hz1⟩ := List.mem_map.mp hb
                  exact b1 z hz (hz1 ▸ hy1 ▸ s4 y hy)
                · exact fun x hx => b3 (s3 hx)
                · intro y hy
                  rcases List.mem_append.mp hy with hy | hy
                  · exact b3 (s4 y hy)
                  · exact b4 y hy

/-! ### C7 — exactly one terminal marker -/

theorem count_none_trace (l : List (List UInt8)) :
    (l.map some ++ [(none : Option (List UInt8))]).count none = 1 ∧
    (l.map some ++ [(none : Option (List UInt8))]).getLast? = some none := by
  constructor
  · rw [List.count_append]
    have h0 : (l.map some).count (none : Option (List UInt8)) = 0 := by
      rw [List.count_eq_zero]
      intro hcon
      obtain ⟨a, _, ha⟩ := List.mem_map.mp hcon
      exact Option.noConfusion ha
    rw [h0]
    rfl
  · exact List.getLast?_concat _

/-- C7: whatever the presentation mode, the fetch/parse outcomes, the
cancellation schedule and the loop fuel — hence on normal completion, on
observed cancellation, on live track disappearance and on an unrecoverable
internal error alike — the queue trace of the producer contains the terminal
`None` marker exactly once, and as its last element. -/
theorem c7_terminal_marker :
    ∀ (mpdType : String) (parse : Nat → Option (List (String × Track)))
      (fetch : Nat → FetchRes) (stop : Nat → Bool) (track : Track) (fuel : Nat),
      (segmentFetcherTrace mpdType parse fetch stop track fuel).count none = 1 ∧
      (segmentFetcherTrace mpdType parse fetch stop track fuel).getLast? = some none := by
  intro mpdType parse fetch stop track fuel
  rw [segmentFetcherTrace]
  exact count_none_trace _

/-! ### C8 — template expansion -/

theorem fmtCoreF_nil (number time : Option Int) : ∀ fuel, fmtCoreF number time fuel [] = [] := by
  intro fuel
  cases fuel with
  | zero => rfl
  | succ fuel => rfl

theorem tryPH_spec {name cs : List Char} {fmt : Option (List Char)} {rest : List Char}
    (h : tryPH name cs = some (fmt, rest)) : rest.length ≤ cs.length ∧ '$' ∈ cs := by
  rw [tryPH] at h
  split at h
  next hpre =>
    split at h
    next rest' heq =>
      obtain ⟨h1, h2⟩ : fmt = none ∧ rest' = rest := by simpa [eq_comm] using h
      subst h2
      constructor
      · have hl := congrArg List.length heq
        simp [List.length_drop] at hl
        omega
      · exact List.mem_of_mem_drop (heq ▸ List.mem_cons_self '$' _)
    next r1 heq =>
      dsimp only at h
      split at h
      · exact absurd h (by simp)
      · split at h
        next rest' heq2 =>
          obtain ⟨h1, h2⟩ : some ('%' :: List.takeWhile isFmtChar r1) = fmt ∧ rest' = rest := by
            simpa using h
          subst h2
          constructor
          · have hl := congrArg List.length heq
            have hw : (r1.dropWhile isFmtChar).length ≤ r1.length :=
              (List.dropWhile_sublist isFmtChar).length_le
            have hl2 := congrArg List.length heq2
            simp [List.length_drop] at hl hl2
            omega
          · have hm1 : '$' ∈ r1.dropWhile isFmtChar := heq2 ▸ List.mem_cons_self '$' _
            have hm2 : '$' ∈ r1 := (List.dropWhile_sublist isFmtChar).mem hm1
            have hm3 : '$' ∈ '%' :: r1 := List.mem_cons_of_mem _ hm2
            exact List.mem_of_mem_drop (heq ▸ hm3)
        next => exact absurd h (by simp)
    next => exact absurd h (by simp)
  next => exact absurd h (by simp)

theorem matchPH_spec {cs : List Char} {b : Bool} {fmt : Option (List Char)} {rest : List Char}
    (h : matchPH cs = some (b, fmt, rest)) : rest.length ≤ cs.length ∧ '$' ∈ cs := by
  rw [matchPH] at h
  split at h
  next fmtN restN heq =>
    obtain ⟨h1, h2, h3⟩ : true = b ∧ fmtN = fmt ∧ restN = rest := by simpa using h
    subst h2; subst h3
    exact tryPH_spec heq
  next =>
    split at h
    next fmtN restN heq =>
      obtain ⟨h1, h2, h3⟩ : false = b ∧ fmtN = fmt ∧ restN = rest := by simpa using h
      subst h2; subst h3
      exact tryPH_spec heq
    next => exact absurd h (by simp)

theorem matchPH_none_of_clean {cs : List Char} (h : '$' ∉ cs) : matchPH cs = none := by
  cases hm : matchPH cs with
  | none => rfl
  | some p =>
    obtain ⟨b, fmt, rest⟩ := p
    exact absurd (matchPH_spec hm).2 h

theorem fmtCoreF_fuel (number time : Option Int) :
    ∀ (fuel : Nat) (l : List Char), l.length ≤ fuel →
      fmtCoreF number time fuel l = fmtCoreF number time l.length l := by
  intro fuel
  induction fuel using Nat.strong_induction_on with
  | _ fuel ihs =>
    intro l hl
    cases l with
    | nil => rw [fmtCoreF_nil, fmtCoreF_nil]
    | cons c cs =>
      cases fuel with
      | zero => simp at hl
      | succ fuel =>
        have hcs : cs.length ≤ fuel := by
          simp at hl
          omega
        rw [show (c :: cs).length = cs.length + 1 from rfl]
        rw [fmtCoreF, fmtCoreF]
        by_cases hc : c = '$'
        · rw [if_pos hc, if_pos hc]
          cases hm : matchPH cs with
          | none =>
            dsimp only
            congr 1
            rw [ihs fuel (Nat.lt_succ_self _) cs hcs,
              ihs cs.length (Nat.lt_succ_of_le hcs) cs (le_refl _)]
          | some ph =>
            obtain ⟨isNum, fmt, rest⟩ := ph
            dsimp only
            congr 1
            have hr := (matchPH_spec hm).1
            rw [ihs fuel (Nat.lt_succ_self _) rest (le_trans hr hcs),
              ihs cs.length (Nat.lt_succ_of_le hcs) rest hr]
        · rw [if_neg hc, if_neg hc]
          congr 1
          rw [ihs fuel (Nat.lt_succ_self _) cs hcs,
            ihs cs.length (Nat.lt_succ_of_le hcs) cs (le_refl _)]

theorem fmtCoreF_copy (number time : Option Int) :
    ∀ (pre : List Char), (∀ c ∈ pre, c ≠ '$') →
      ∀ (l : List Char) (fuel : Nat), (pre ++ l).length ≤ fuel →
        fmtCoreF number time fuel (pre ++ l) = pre ++ fmtCoreF number time l.length l := by
  intro pre
  induction pre with
  | nil =>
    intro _ l fuel hf
    simpa using fmtCoreF_fuel number time fuel l (by simpa using hf)
  | cons c pre ih =>
    intro hpre l fuel hf
    cases fuel with
    | zero => simp at hf
    | succ fuel =>
      rw [List.cons_append, fmtCoreF, if_neg (hpre c (List.mem_cons_self _ _))]
      rw [List.cons_append]
      congr 1
      refine ih (fun c hc => hpre c (List.mem_cons_of_mem _ hc)) l fuel ?_
      have : (c :: (pre ++ l)).length ≤ fuel + 1 := by simpa using hf
      simp at this ⊢
      omega

theorem fmtCoreF_id (number time : Option Int) {l : List Char} {fuel : Nat}
    (h : ∀ c ∈ l, c ≠ '$') (hf : l.length ≤ fuel) :
    fmtCoreF number time fuel l = l := by
  have := fmtCoreF_copy number time l h [] fuel (by simpa using hf)
  simpa [fmtCoreF_nil] using this

theorem matchPH_number (post : List Char) :
    matchPH ("Number".data ++ '$' :: post) = some (true, none, post) := rfl

theorem matchPH_time (post : List Char) :
    matchPH ("Time".data ++ '$' :: post) = some (false, none, post) := rfl

theorem fmtCoreF_number_step (post : List Char) (n : Int) (t : Option Int) (fuel : Nat)
    (hf : post.length ≤ fuel) :
    fmtCoreF (some n) t (fuel + 8) ("$Number$".data ++ post)
      = (toString n).data ++ fmtCoreF (some n) t post.length post := by
  rw [show ("$Number$".data ++ post) = '$' :: ("Number".data ++ '$' :: post) from rfl]
  rw [show fuel + 8 = (fuel + 7) + 1 from rfl]
  rw [fmtCoreF, if_pos rfl, matchPH_number]
  dsimp only [phRender]
  congr 1
  exact fmtCoreF_fuel (some n) t (fuel + 7) post (by omega)

theorem fmtCoreF_time_step (post : List Char) (num t : Option Int) (fuel : Nat)
    (hf : post.length ≤ fuel) :
    fmtCoreF num t (fuel + 6) ("$Time$".data ++ post)
      = phRender t none ++ fmtCoreF num t post.length post := by
  rw [show ("$Time$".data ++ post) = '$' :: ("Time".data ++ '$' :: post) from rfl]
  rw [show fuel + 6 = (fuel + 5) + 1 from rfl]
  rw [fmtCoreF, if_pos rfl, matchPH_time]
  dsimp only
  congr 1
  exact fmtCoreF_fuel num t (fuel + 5) post (by omega)

theorem fmtCoreF_foo_step (post : List Char) (num time : Option Int) (fuel : Nat)
    (hf : post.length ≤ fuel) (hpost : ∀ c ∈ post, c ≠ '$') :
    fmtCoreF num time (fuel + 5) ("$Foo$".data ++ post) = "$Foo$".data ++ post := by
  rw [show ("$Foo$".data ++ post) = '$' :: ("Foo".data ++ '$' :: post) from rfl]
  rw [show fuel + 5 = (fuel + 4) + 1 from rfl]
  rw [fmtCoreF, if_pos rfl]
  rw [show matchPH ("Foo".data ++ '$' :: post) = none from rfl]
  dsimp only
  congr 1
  rw [fmtCoreF_copy num time "Foo".data (by decide) ('$' :: post) (fuel + 4) (by simp; omega)]
  congr 1
  rw [show ('$' :: post).length = post.length + 1 from rfl]
  rw [fmtCoreF, if_pos rfl]
  rw [matchPH_none_of_clean (fun hc => hpost '$' hc rfl)]
  dsimp only
  congr 1
  exact fmtCoreF_id num time hpost (le_refl _)

/-- C8: the expander substitutes `$Number$` and `$Time$` wherever they occur
(arbitrary placeholder-free context, arbitrary values), rendering a
placeholder whose value was not supplied as the empty string; a `$...$`
placeholder with any other name is left as literal text; `%`-format
specifiers are applied to the value (zero-padding in the concrete instance);
and the representation-id marker is substituted separately after placeholder
expansion — so a representation id containing `$Time$` is not re-expanded. -/
theorem c8_template_expansion :
    (∀ (pre post : List Char) (n : Int) (t : Option Int), (∀ c ∈ pre, c ≠ '$') →
      fmtCoreF (some n) t (pre ++ "$Number$".data ++ post).length (pre ++ "$Number$".data ++ post)
        = pre ++ ((toString n).data ++ fmtCoreF (some n) t post.length post)) ∧
    (∀ (pre post : List Char) (num : Option Int), (∀ c ∈ pre, c ≠ '$') →
      fmtCoreF num none (pre ++ "$Time$".data ++ post).length (pre ++ "$Time$".data ++ post)
        = pre ++ fmtCoreF num none post.length post) ∧
    (∀ (pre post : List Char) (num time : Option Int),
      (∀ c ∈ pre, c ≠ '$') → (∀ c ∈ post, c ≠ '$') →
      fmtCoreF num time (pre ++ "$Foo$".data ++ post).length (pre ++ "$Foo$".data ++ post)
        = pre ++ "$Foo$".data ++ post) ∧
    fmtTemplate "seg_$Number%05d$_$Time$.m4s" (some 7) (some 42) = "seg_00007_42.m4s" ∧
    expandWithRep "$RepresentationID$/s$Number$.m4s" (some 7) none "v0" = "v0/s7.m4s" ∧
    expandWithRep "$RepresentationID$" none (some 5) "x$Time$y" = "x$Time$y" := by
  refine ⟨?_, ?_, ?_, by decide, by decide, by decide⟩
  · intro pre post n t hpre
    rw [List.append_assoc, fmtCoreF_copy (some n) t pre hpre _ _ (le_refl _)]
    congr 1
    rw [show ("$Number$".data ++ post).length = post.length + 8 from by
      simp [List.length_append]]
    exact fmtCoreF_number_step post n t post.length (le_refl _)
  · intro pre post num hpre
    rw [List.append_assoc, fmtCoreF_copy num none pre hpre _ _ (le_refl _)]
    congr 1
    rw [show ("$Time$".data ++ post).length = post.length + 6 from by
      simp [List.length_append]]
    rw [fmtCoreF_time_step post num none post.length (le_refl _)]
    rfl
  · intro pre post num time hpre hpost
    rw [List.append_assoc, fmtCoreF_copy num time pre hpre _ _ (le_refl _)]
    congr 1
    rw [show ("$Foo$".data ++ post).length = post.length + 5 from by
      simp [List.length_append]]
    exact fmtCoreF_foo_step post num time post.length (le_refl _) hpost

/-- Witness for C8: `$Number$` in a one-character context. -/
theorem c8_template_expansion_witness :
    fmtCoreF (some 7) none ((['a'] ++ "$Number$".data ++ ['b']).length)
        (['a'] ++ "$Number$".data ++ ['b'])
      = ['a'] ++ ((toString (7 : Int)).data ++ fmtCoreF (some 7) none (['b'].length) ['b']) :=
  c8_template_expansion.1 ['a'] ['b'] 7 none (by decide)

/-- Witness for C6 at a concrete session. -/
theorem c6_live_no_reyield_witness :
    ((liveBody (fun _ => none) (fun _ => FetchRes.fail) (fun _ => false) "k" 1 [] 0).1.map
        Prod.fst).Nodup :=
  (c6_live_no_reyield (fun _ => none) (fun _ => FetchRes.fail) (fun _ => false) "k" 1 [] 0).2.1

/-- Witness for C7 at a concrete session whose first fetch raises fatally. -/
theorem c7_terminal_marker_witness :
    (segmentFetcherTrace "static" (fun _ => none) (fun _ => FetchRes.fatal) (fun _ => false)
        ⟨"k", "i", "t", 0, ["u"]⟩ 2).count none = 1 :=
  (c7_terminal_marker "static" (fun _ => none) (fun _ => FetchRes.fatal) (fun _ => false)
    ⟨"k", "i", "t", 0, ["u"]⟩ 2).1

/-- Witness for C10 at a concrete fetch outcome. -/
theorem c10_parser_totality_witness :
    parseMpdTop FetchParse.netErr = none ∨
    ∃ tracks mode, parseMpdTop FetchParse.netErr = some (tracks, mode) ∧
      ∀ kt ∈ tracks, trackInv kt :=
  c10_parser_totality FetchParse.netErr
